import Mathlib

/-!
Verification of the evidence-normalization core of the PMF Interview
Synthesizer (`app.py`).  The normalization block (everything between the
"Normalize evidence fields" and "Prep data for display" comments) operates on
the Python value returned by `json.loads`, so we embed those values as an
inductive type and translate each Python operation used by the block,
including its failure behaviour (`.get` on a non-dict raises AttributeError,
hashing a list raises TypeError, iterating a non-iterable raises TypeError).
JSON numbers are modelled as integers; the claims only involve counts.
Mutation in `app.py` is in place, but the input comes from `json.loads` and
hence contains no aliasing, so the functional translation below is faithful.
-/

namespace App

/-- A Python value as produced by `json.loads`: None, bool, number (modelled
as an integer), string, list, or dict (an insertion-ordered association
list). -/
inductive Json where
  | null : Json
  | bool (b : Bool) : Json
  | num (n : Int) : Json
  | str (s : String) : Json
  | arr (elems : List Json) : Json
  | obj (fields : List (String × Json)) : Json

mutual

/-- Decidable equality for `Json` (Python `==` on these values, with numbers
restricted to integers). -/
def Json.decEq : (a b : Json) → Decidable (a = b)
  | .null, .null => .isTrue rfl
  | .bool a, .bool b =>
    if h : a = b then .isTrue (by rw [h]) else .isFalse (fun hh => h (Json.bool.inj hh))
  | .num a, .num b =>
    if h : a = b then .isTrue (by rw [h]) else .isFalse (fun hh => h (Json.num.inj hh))
  | .str a, .str b =>
    if h : a = b then .isTrue (by rw [h]) else .isFalse (fun hh => h (Json.str.inj hh))
  | .arr xs, .arr ys =>
    match Json.decEqList xs ys with
    | .isTrue h => .isTrue (by rw [h])
    | .isFalse h => .isFalse (fun hh => h (Json.arr.inj hh))
  | .obj fs, .obj gs =>
    match Json.decEqFields fs gs with
    | .isTrue h => .isTrue (by rw [h])
    | .isFalse h => .isFalse (fun hh => h (Json.obj.inj hh))
  | .null, .bool _ => .isFalse (fun h => Json.noConfusion h)
  | .null, .num _ => .isFalse (fun h => Json.noConfusion h)
  | .null, .str _ => .isFalse (fun h => Json.noConfusion h)
  | .null, .arr _ => .isFalse (fun h => Json.noConfusion h)
  | .null, .obj _ => .isFalse (fun h => Json.noConfusion h)
  | .bool _, .null => .isFalse (fun h => Json.noConfusion h)
  | .bool _, .num _ => .isFalse (fun h => Json.noConfusion h)
  | .bool _, .str _ => .isFalse (fun h => Json.noConfusion h)
  | .bool _, .arr _ => .isFalse (fun h => Json.noConfusion h)
  | .bool _, .obj _ => .isFalse (fun h => Json.noConfusion h)
  | .num _, .null => .isFalse (fun h => Json.noConfusion h)
  | .num _, .bool _ => .isFalse (fun h => Json.noConfusion h)
  | .num _, .str _ => .isFalse (fun h => Json.noConfusion h)
  | .num _, .arr _ => .isFalse (fun h => Json.noConfusion h)
  | .num _, .obj _ => .isFalse (fun h => Json.noConfusion h)
  | .str _, .null => .isFalse (fun h => Json.noConfusion h)
  | .str _, .bool _ => .isFalse (fun h => Json.noConfusion h)
  | .str _, .num _ => .isFalse (fun h => Json.noConfusion h)
  | .str _, .arr _ => .isFalse (fun h => Json.noConfusion h)
  | .str _, .obj _ => .isFalse (fun h => Json.noConfusion h)
  | .arr _, .null => .isFalse (fun h => Json.noConfusion h)
  | .arr _, .bool _ => .isFalse (fun h => Json.noConfusion h)
  | .arr _, .num _ => .isFalse (fun h => Json.noConfusion h)
  | .arr _, .str _ => .isFalse (fun h => Json.noConfusion h)
  | .arr _, .obj _ => .isFalse (fun h => Json.noConfusion h)
  | .obj _, .null => .isFalse (fun h => Json.noConfusion h)
  | .obj _, .bool _ => .isFalse (fun h => Json.noConfusion h)
  | .obj _, .num _ => .isFalse (fun h => Json.noConfusion h)
  | .obj _, .str _ => .isFalse (fun h => Json.noConfusion h)
  | .obj _, .arr _ => .isFalse (fun h => Json.noConfusion h)

/-- Decidable equality for lists of `Json` values. -/
def Json.decEqList : (a b : List Json) → Decidable (a = b)
  | [], [] => .isTrue rfl
  | [], _ :: _ => .isFalse (fun h => List.noConfusion h)
  | _ :: _, [] => .isFalse (fun h => List.noConfusion h)
  | x :: xs, y :: ys =>
    match Json.decEq x y with
    | .isFalse h => .isFalse (fun hh => h (List.head_eq_of_cons_eq hh))
    | .isTrue h1 =>
      match Json.decEqList xs ys with
      | .isTrue h2 => .isTrue (by rw [h1, h2])
      | .isFalse h => .isFalse (fun hh => h (List.tail_eq_of_cons_eq hh))

/-- Decidable equality for dict field lists. -/
def Json.decEqFields : (a b : List (String × Json)) → Decidable (a = b)
  | [], [] => .isTrue rfl
  | [], _ :: _ => .isFalse (fun h => List.noConfusion h)
  | _ :: _, [] => .isFalse (fun h => List.noConfusion h)
  | (k, v) :: fs, (k', v') :: gs =>
    if hk : k = k' then
      match Json.decEq v v' with
      | .isFalse h =>
        .isFalse (fun hh => h (congrArg Prod.snd (List.head_eq_of_cons_eq hh)))
      | .isTrue h1 =>
        match Json.decEqFields fs gs with
        | .isTrue h2 => .isTrue (by rw [hk, h1, h2])
        | .isFalse h => .isFalse (fun hh => h (List.tail_eq_of_cons_eq hh))
    else .isFalse (fun hh => hk (congrArg Prod.fst (List.head_eq_of_cons_eq hh)))

end

instance : DecidableEq Json := Json.decEq

instance {ε α : Type} [DecidableEq ε] [DecidableEq α] : DecidableEq (Except ε α)
  | .error e, .error e' =>
    if h : e = e' then .isTrue (by rw [h]) else .isFalse (fun hh => h (Except.error.inj hh))
  | .ok a, .ok b =>
    if h : a = b then .isTrue (by rw [h]) else .isFalse (fun hh => h (Except.ok.inj hh))
  | .error _, .ok _ => .isFalse (fun h => Except.noConfusion h)
  | .ok _, .error _ => .isFalse (fun h => Except.noConfusion h)

/-- The two kinds of Python exception the normalization block can raise:
`AttributeError` (calling `.get` on a value that is not a dict) and
`TypeError` (iterating a non-iterable, or hashing a list/dict). -/
inductive PyErr where
  | attributeError : PyErr
  | typeError : PyErr
deriving DecidableEq

/-- Python hashability: lists and dicts are unhashable, everything else used
here (None, bool, int, str) is hashable. -/
def Json.hashable : Json → Bool
  | .arr _ => false
  | .obj _ => false
  | _ => true

/-- Python truthiness (`if p:`): None, False, 0, "", [], and the empty dict
are falsy. -/
def Json.pyTruthy : Json → Bool
  | .null => false
  | .bool b => b
  | .num n => decide (n ≠ 0)
  | .str s => !s.isEmpty
  | .arr xs => !xs.isEmpty
  | .obj fs => !fs.isEmpty

/-- Whether a value is a dict (a keyed structure / mapping). -/
def Json.isObj : Json → Bool
  | .obj _ => true
  | _ => false

/-- Dict field lookup: first binding whose key matches (Python dicts have
unique keys; on the association list we take the first match). -/
def objFind : List (String × Json) → String → Option Json
  | [], _ => none
  | (k', v) :: fs, k => if k' = k then some v else objFind fs k

/-- Dict item assignment `d[k] = v`: overwrite in place if the key is
present, otherwise append the new binding at the end (Python dicts preserve
insertion order). -/
def setField : List (String × Json) → String → Json → List (String × Json)
  | [], k, v => [(k, v)]
  | (k', v') :: fs, k, v =>
    if k' = k then (k', v) :: fs else (k', v') :: setField fs k v

/-- Python iteration `for x in j`: lists yield their elements, strings their
one-character substrings, dicts their keys; anything else raises
TypeError. -/
def pyIter : Json → Except PyErr (List Json)
  | .arr xs => .ok xs
  | .str s => .ok (s.toList.map fun c => Json.str c.toString)
  | .obj fs => .ok (fs.map fun kv => Json.str kv.1)
  | _ => .error .typeError

/-- Adding one element to a Python set, modelled as a duplicate-free list:
already-present elements are ignored, new ones appended. -/
def setAdd (s : List Json) (x : Json) : List Json :=
  if x ∈ s then s else s ++ [x]

/-- `list(dict.fromkeys(xs))` on an already-iterated list: every element must
be hashable (else TypeError), and the result keeps the first occurrence of
each value, in order. -/
def pyFromkeys (xs : List Json) : Except PyErr (List Json) :=
  if xs.all Json.hashable then .ok (xs.foldl setAdd []) else .error .typeError

/-- The pain-point half of the normalization block (`app.py` lines 247-258):
```
interviews = p.get("evidence_interviews", [])
interviews = list(dict.fromkeys(interviews))  # unique, keep order
p["evidence_interviews"] = interviews
p["evidence_count"] = len(interviews)
if p["evidence_count"] <= 1: p["evidence_strength"] = "low"
elif p["evidence_count"] == 2: p["evidence_strength"] = "medium"
else: p["evidence_strength"] = "high"
```
After the assignment, `p["evidence_count"]` holds exactly
`interviews.length`, so the strength branches compare that length. -/
def normPainPoint : Json → Except PyErr Json
  | .obj fs =>
    match pyIter ((objFind fs "evidence_interviews").getD (.arr [])) with
    | .error e => .error e
    | .ok elems =>
      match pyFromkeys elems with
      | .error e => .error e
      | .ok interviews =>
        let fs1 := setField fs "evidence_interviews" (.arr interviews)
        let n := interviews.length
        let fs2 := setField fs1 "evidence_count" (.num n)
        let strength : String := if n ≤ 1 then "low" else if n = 2 then "medium" else "high"
        .ok (.obj (setField fs2 "evidence_strength" (.str strength)))
  | _ => .error .attributeError

/-- Insertion into a Json-keyed Python dict: overwrite in place or append. -/
def mapInsert : List (Json × Json) → Json → Json → List (Json × Json)
  | [], k, v => [(k, v)]
  | (k', v') :: m, k, v =>
    if k' = k then (k', v) :: m else (k', v') :: mapInsert m k v

/-- Lookup in a Json-keyed Python dict (`m.get(k)` returning None as
`Option.none`). -/
def mapFind : List (Json × Json) → Json → Option Json
  | [], _ => none
  | (k', v) :: m, k => if k' = k then some v else mapFind m k

/-- Left fold over a list of values where each step may raise. -/
def foldExcept {α : Type} (f : α → Json → Except PyErr α) : α → List Json → Except PyErr α
  | a, [] => .ok a
  | a, x :: xs =>
    match f a x with
    | .error e => .error e
    | .ok a' => foldExcept f a' xs

/-- One step of the dict comprehension
`{p.get("label"): p for p in result.get("pain_points", [])}` (`app.py` line
261): `p.get` requires a dict, the key must be hashable, and a repeated label
overwrites the earlier binding (last-write-wins). -/
def lookupStep (m : List (Json × Json)) (p : Json) : Except PyErr (List (Json × Json)) :=
  match p with
  | .obj fs =>
    let label := (objFind fs "label").getD .null
    if label.hashable then .ok (mapInsert m label p) else .error .typeError
  | _ => .error .attributeError

/-- The full dict comprehension building `pp_by_label`. -/
def buildLookup (ps : List Json) : Except PyErr (List (Json × Json)) :=
  foldExcept lookupStep [] ps

/-- One iteration of the inner theme loop (`app.py` lines 264-267):
```
p = pp_by_label.get(label)
if p: unique_interviews.update(p.get("evidence_interviews", []))
```
`dict.get` hashes the key; `set.update` iterates its argument and hashes
every element. -/
def themeLabelStep (m : List (Json × Json)) (s : List Json) (label : Json) :
    Except PyErr (List Json) :=
  if label.hashable then
    match mapFind m label with
    | none => .ok s
    | some p =>
      if p.pyTruthy then
        match p with
        | .obj pfs =>
          match pyIter ((objFind pfs "evidence_interviews").getD (.arr [])) with
          | .error e => .error e
          | .ok elems =>
            if elems.all Json.hashable then .ok (elems.foldl setAdd s) else .error .typeError
        | _ => .error .attributeError
      else .ok s
  else .error .typeError

/-- The theme half of the normalization block (`app.py` lines 262-268):
accumulate `unique_interviews` over the theme's listed labels, then store its
size as `t["evidence_count"]`. -/
def normTheme (m : List (Json × Json)) : Json → Except PyErr Json
  | .obj fs =>
    match pyIter ((objFind fs "pain_points").getD (.arr [])) with
    | .error e => .error e
    | .ok labels =>
      match foldExcept (themeLabelStep m) [] labels with
      | .error e => .error e
      | .ok s => .ok (.obj (setField fs "evidence_count" (.num s.length)))
  | _ => .error .attributeError

/-- Mapping a fallible step over a list, stopping at the first raise. -/
def mapExcept (f : Json → Except PyErr Json) : List Json → Except PyErr (List Json)
  | [] => .ok []
  | x :: xs =>
    match f x with
    | .error e => .error e
    | .ok y =>
      match mapExcept f xs with
      | .error e => .error e
      | .ok ys => .ok (y :: ys)

/-- In-place mutation of the entries of `result[k]` seen functionally: when
the key holds a list, that list's entries are the (now rewritten) ones; when
the key is absent the loop iterated a fresh default `[]` that is never stored,
and a non-list value is left untouched (it can only have iterated to nothing,
else the loop body had already raised). -/
def writeBack (fs : List (String × Json)) (k : String) (newElems : List Json) :
    List (String × Json) :=
  match objFind fs k with
  | some (.arr _) => setField fs k (.arr newElems)
  | _ => fs

/-- The whole normalization block (`app.py` lines 246-268): rewrite every
pain point, rebuild `pp_by_label` from `result.get("pain_points", [])` (the
already-rewritten entries), then rewrite every theme.  Called on the value
returned by `json.loads`; a non-dict input raises AttributeError at the very
first `result.get`. -/
def normalize : Json → Except PyErr Json
  | .obj fs =>
    match pyIter ((objFind fs "pain_points").getD (.arr [])) with
    | .error e => .error e
    | .ok ppElems =>
      match mapExcept normPainPoint ppElems with
      | .error e => .error e
      | .ok newPps =>
        let fs1 := writeBack fs "pain_points" newPps
        match pyIter ((objFind fs1 "pain_points").getD (.arr [])) with
        | .error e => .error e
        | .ok ppElems1 =>
          match buildLookup ppElems1 with
          | .error e => .error e
          | .ok m =>
            match pyIter ((objFind fs1 "themes").getD (.arr [])) with
            | .error e => .error e
            | .ok thElems =>
              match mapExcept (normTheme m) thElems with
              | .error e => .error e
              | .ok newThs => .ok (.obj (writeBack fs1 "themes" newThs))
  | _ => .error .attributeError

/-- Field access on a value that may or may not be a dict (used only in
theorem statements). -/
def jGet : Json → String → Option Json
  | .obj fs, k => objFind fs k
  | _, _ => none

/-- The label under which a pain-point entry is registered in `pp_by_label`:
`p.get("label")`, i.e. None when the field is absent (used only in theorem
statements). -/
def ppLabel : Json → Json
  | .obj fs => (objFind fs "label").getD .null
  | _ => .null

/-- Follows the spec's words: "deduplicate while preserving first-occurrence
order" — keep the first occurrence of each value and drop all later ones. -/
def specDedupFirstOccurrence : List Json → List Json
  | [] => []
  | x :: xs => x :: (specDedupFirstOccurrence xs).filter (fun y => decide (y ≠ x))

/-- The interview identifiers one theme label contributes to the theme's
`unique_interviews` set: the stored `evidence_interviews` of the entry the
label resolves to in `pp_by_label`, nothing when the label has no match or
the matched entry is falsy (used only in theorem statements). -/
def contribOf (m : List (Json × Json)) (label : Json) : List Json :=
  if label.hashable then
    match mapFind m label with
    | some (.obj pfs) =>
      if (Json.obj pfs).pyTruthy then
        match pyIter ((objFind pfs "evidence_interviews").getD (.arr [])) with
        | .ok elems => elems
        | .error _ => []
      else []
    | _ => []
  else []

/-- A pain-point entry whose evidence field (present or defaulted) is a list
of hashable values: exactly the shape the theme loop can consume without
raising. -/
def goodPP : Json → Bool
  | .obj pfs =>
    match (objFind pfs "evidence_interviews").getD (.arr []) with
    | .arr xs => xs.all Json.hashable
    | _ => false
  | _ => false

/-- The dict a successfully normalized pain point becomes (abbreviation for
statements and proofs; it is exactly the success branch of
`normPainPoint`). -/
def ppResult (fs : List (String × Json)) (elems : List Json) : Json :=
  .obj (setField (setField (setField fs "evidence_interviews"
      (.arr (elems.foldl setAdd []))) "evidence_count"
      (.num (elems.foldl setAdd []).length)) "evidence_strength"
      (.str (if (elems.foldl setAdd []).length ≤ 1 then "low"
             else if (elems.foldl setAdd []).length = 2 then "medium" else "high")))

/-- The dict a successfully recomputed theme becomes. -/
def themeResult (fs : List (String × Json)) (s : List Json) : Json :=
  .obj (setField fs "evidence_count" (.num s.length))

/-- The entry a dict built by repeated keyed insertion ends up holding for a
key: the last processed entry whose label equals the key (used only in
theorem statements). -/
def lastLabelMatch (ps : List Json) (k : Json) : Option Json :=
  ps.foldl (fun acc p => if ppLabel p = k then some p else acc) none

/-- A raw pain-point entry shaped so the pain-point loop and the later
lookup build can process it without raising: a dict whose
`evidence_interviews` (present or defaulted) is a list of hashable values
and whose label (present or defaulted to None) is hashable. -/
def goodPPEntry : Json → Bool
  | .obj pfs =>
    (match (objFind pfs "evidence_interviews").getD (.arr []) with
     | .arr xs => xs.all Json.hashable
     | _ => false) &&
    ((objFind pfs "label").getD .null).hashable

  | _ => false

/-- A raw theme entry shaped so the theme loop can process it without
raising: a dict whose `pain_points` (present or defaulted) is a list of
hashable values. -/
def goodThemeEntry : Json → Bool
  | .obj tfs =>
    match (objFind tfs "pain_points").getD (.arr []) with
    | .arr ls => ls.all Json.hashable
    | _ => false
  | _ => false

/-- A raw result on which the whole normalization block runs to completion:
a mapping whose `pain_points` and `themes` fields, when present, are lists
of well-shaped entries.  Absent fields are always acceptable. -/
def wellShaped : Json → Bool
  | .obj fs =>
    (match (objFind fs "pain_points").getD (.arr []) with
     | .arr ps => ps.all goodPPEntry
     | _ => false) &&
    (match (objFind fs "themes").getD (.arr []) with
     | .arr ts => ts.all goodThemeEntry
     | _ => false)
  | _ => false

/-- Outcome of one HTTP POST attempt as seen by `call_openai_synthesis`: a
response with a status code, a body text, and the synthesis payload when
`r.json()`, field extraction, and `json.loads` succeed on it, or an
exception raised by the HTTP library (timeout, connection error). -/
inductive TransportResult where
  | response (status : Nat) (text : String) (payload : Option Json) : TransportResult
  | failure (msg : String) : TransportResult

/-- The fixed parameters of the single `requests.post` call in
`call_openai_synthesis` (`app.py` line 150). -/
structure SynthRequest where
  url : String
  model : String
  timeout : Nat

def synthRequest : SynthRequest :=
  { url := "https://api.openai.com/v1/responses", model := "gpt-4o-mini", timeout := 60 }

/-- `call_openai_synthesis` (`app.py` lines 150-158) run against an oracle
giving the outcome of each successive HTTP call the program might make: the
function consults only `transport 0` and reports the number of calls it
made (always 1 — there is no retry loop in the source).  A raised transport
exception propagates; a non-200 status becomes
`RuntimeError("OpenAI API error {status}: {text}")`; an unextractable or
unparseable payload raises a parse error; otherwise the parsed object is
returned. -/
def callOpenaiSynthesis (transport : Nat → TransportResult) : Except String Json × Nat :=
  match transport 0 with
  | .failure msg => (.error msg, 1)
  | .response status text payload =>
    if status ≠ 200 then
      (.error ("OpenAI API error " ++ toString status ++ ": " ++ text), 1)
    else
      match payload with
      | none => (.error "invalid response payload", 1)
      | some j => (.ok j, 1)

/-- The analyze flow (`app.py` lines 239-244): the call runs inside
try/except and any exception aborts via `st.error`/`st.stop` with a message
carrying the underlying detail, so nothing further runs; otherwise the
normalization block runs on the parsed object (its own failure aborts too,
as an uncaught exception outside the try block). -/
def analyze (transport : Nat → TransportResult) : Except String Json :=
  match (callOpenaiSynthesis transport).1 with
  | .error e => .error ("Analysis failed: " ++ e)
  | .ok raw =>
    match normalize raw with
    | .error pe =>
      .error (match pe with
        | .attributeError => "AttributeError"
        | .typeError => "TypeError")
    | .ok y => .ok y

section FieldLemmas

theorem objFind_setField_self (fs : List (String × Json)) (k : String) (v : Json) :
    objFind (setField fs k v) k = some v := by
  induction fs with
  | nil => simp [setField, objFind]
  | cons kv fs ih =>
    obtain ⟨k', v'⟩ := kv
    by_cases h : k' = k
    · simp [setField, objFind, h]
    · simp [setField, objFind, h, ih]

theorem objFind_setField_ne (fs : List (String × Json)) {k k' : String} (v : Json)
    (h : k' ≠ k) : objFind (setField fs k v) k' = objFind fs k' := by
  induction fs with
  | nil => simp [setField, objFind, Ne.symm h]
  | cons kv fs ih =>
    obtain ⟨k0, v0⟩ := kv
    by_cases h0 : k0 = k
    · subst h0
      simp [setField, objFind, Ne.symm h]
    · simp only [setField, if_neg h0, objFind]
      by_cases h1 : k0 = k'
      · simp [h1]
      · simp [h1, ih]

theorem setField_eq_of_objFind {fs : List (String × Json)} {k : String} {v : Json}
    (h : objFind fs k = some v) : setField fs k v = fs := by
  induction fs with
  | nil => simp [objFind] at h
  | cons kv fs ih =>
    obtain ⟨k0, v0⟩ := kv
    by_cases h0 : k0 = k
    · simp only [objFind, if_pos h0] at h
      obtain rfl : v0 = v := Option.some.inj h
      simp [setField, h0]
    · simp only [objFind, if_neg h0] at h
      simp [setField, h0, ih h]

theorem mapFind_insert_self (m : List (Json × Json)) (k : Json) (v : Json) :
    mapFind (mapInsert m k v) k = some v := by
  induction m with
  | nil => simp [mapInsert, mapFind]
  | cons kv m ih =>
    obtain ⟨k', v'⟩ := kv
    by_cases h : k' = k
    · simp [mapInsert, mapFind, h]
    · simp [mapInsert, mapFind, h, ih]

theorem mapFind_insert_ne (m : List (Json × Json)) {k k' : Json} (v : Json)
    (h : k' ≠ k) : mapFind (mapInsert m k v) k' = mapFind m k' := by
  induction m with
  | nil => simp [mapInsert, mapFind, Ne.symm h]
  | cons kv m ih =>
    obtain ⟨k0, v0⟩ := kv
    by_cases h0 : k0 = k
    · subst h0
      simp [mapInsert, mapFind, Ne.symm h]
    · simp only [mapInsert, if_neg h0, mapFind]
      by_cases h1 : k0 = k'
      · simp [h1]
      · simp [h1, ih]

end FieldLemmas

section SetAddLemmas

theorem mem_setAdd {s : List Json} {x y : Json} : y ∈ setAdd s x ↔ y ∈ s ∨ y = x := by
  by_cases h : x ∈ s
  · simp only [setAdd, if_pos h]
    exact ⟨Or.inl, fun hy => hy.elim id (fun hy => hy ▸ h)⟩
  · simp [setAdd, h]

theorem toFinset_setAdd (s : List Json) (x : Json) :
    (setAdd s x).toFinset = insert x s.toFinset := by
  ext y
  simp only [List.mem_toFinset, mem_setAdd, Finset.mem_insert]
  tauto

theorem nodup_setAdd {s : List Json} (x : Json) (h : s.Nodup) : (setAdd s x).Nodup := by
  by_cases hx : x ∈ s
  · simpa [setAdd, hx] using h
  · simp [setAdd, hx, List.nodup_append, h]

theorem foldl_setAdd_toFinset (l : List Json) (s : List Json) :
    (l.foldl setAdd s).toFinset = s.toFinset ∪ l.toFinset := by
  induction l generalizing s with
  | nil => simp
  | cons x xs ih =>
    simp only [List.foldl_cons, ih, toFinset_setAdd, List.toFinset_cons]
    ext y
    simp only [Finset.mem_union, Finset.mem_insert]
    tauto

theorem foldl_setAdd_nodup (l : List Json) (s : List Json) (h : s.Nodup) :
    (l.foldl setAdd s).Nodup := by
  induction l generalizing s with
  | nil => simpa
  | cons x xs ih => exact ih _ (nodup_setAdd x h)

theorem mem_foldl_setAdd {l s : List Json} {x : Json} :
    x ∈ l.foldl setAdd s ↔ x ∈ s ∨ x ∈ l := by
  have := foldl_setAdd_toFinset l s
  have h1 := congrArg (x ∈ ·) this
  simpa [List.mem_toFinset] using h1

theorem length_foldl_setAdd (l : List Json) :
    (l.foldl setAdd []).length = l.toFinset.card := by
  have h1 : (l.foldl setAdd []).toFinset = l.toFinset := by
    simp [foldl_setAdd_toFinset]
  have h2 : (l.foldl setAdd []).Nodup := foldl_setAdd_nodup l [] (by simp)
  rw [← List.toFinset_card_of_nodup h2, h1]

theorem foldl_setAdd_of_disjoint {l s : List Json} (hl : l.Nodup)
    (hs : ∀ x ∈ l, x ∉ s) : l.foldl setAdd s = s ++ l := by
  induction l generalizing s with
  | nil => simp
  | cons x xs ih =>
    have hx : x ∉ s := hs x (by simp)
    simp only [List.foldl_cons, setAdd, if_neg hx]
    rw [ih hl.of_cons]
    · simp
    · intro y hy
      simp only [List.mem_append, List.mem_singleton]
      rintro (hy' | rfl)
      · exact hs y (by simp [hy]) hy'
      · exact (List.nodup_cons.mp hl).1 hy

theorem foldl_setAdd_idem (l : List Json) :
    (l.foldl setAdd []).foldl setAdd [] = l.foldl setAdd [] := by
  have h := foldl_setAdd_nodup l [] (by simp)
  simpa using foldl_setAdd_of_disjoint h (by simp)

theorem specDedup_filter_comm (q : Json → Bool) (l : List Json) :
    specDedupFirstOccurrence (l.filter q) = (specDedupFirstOccurrence l).filter q := by
  induction l with
  | nil => simp [specDedupFirstOccurrence]
  | cons x xs ih =>
    rw [List.filter_cons]
    cases hq : q x with
    | true =>
      rw [if_pos (by simp [hq])]
      show x :: (specDedupFirstOccurrence (xs.filter q)).filter (fun y => decide (y ≠ x)) =
        (x :: (specDedupFirstOccurrence xs).filter (fun y => decide (y ≠ x))).filter q
      rw [ih, List.filter_cons, if_pos (by simp [hq]), List.filter_filter,
        List.filter_filter]
      congr 1
      apply List.filter_congr
      intro y _
      exact Bool.and_comm _ _
    | false =>
      rw [if_neg (by simp [hq])]
      show specDedupFirstOccurrence (xs.filter q) =
        (x :: (specDedupFirstOccurrence xs).filter (fun y => decide (y ≠ x))).filter q
      rw [ih, List.filter_cons, if_neg (by simp [hq]), List.filter_filter]
      apply List.filter_congr
      intro y _
      by_cases hxy : y = x
      · subst hxy; simp [hq]
      · simp [hxy]

theorem foldl_setAdd_eq_specDedup (l : List Json) (s : List Json) :
    l.foldl setAdd s = s ++ specDedupFirstOccurrence (l.filter (fun x => decide (x ∉ s))) := by
  induction l generalizing s with
  | nil => simp [specDedupFirstOccurrence]
  | cons x xs ih =>
    rw [List.foldl_cons, List.filter_cons]
    by_cases hx : x ∈ s
    · rw [if_neg (by simp [hx])]
      have hkeep : setAdd s x = s := by simp [setAdd, hx]
      rw [hkeep, ih]
    · rw [if_pos (by simp [hx])]
      have hadd : setAdd s x = s ++ [x] := by simp [setAdd, hx]
      have hfil : xs.filter (fun y => decide (y ∉ s ++ [x])) =
          (xs.filter (fun y => decide (y ∉ s))).filter (fun y => decide (y ≠ x)) := by
        rw [List.filter_filter]
        apply List.filter_congr
        intro y _
        by_cases h1 : y ∈ s <;> by_cases h2 : y = x <;>
          simp [h1, h2, List.mem_append]
      rw [hadd, ih, hfil, specDedup_filter_comm, List.append_assoc,
        List.singleton_append]
      rfl

/-- `list(dict.fromkeys(xs))` computes exactly the spec's first-occurrence
deduplication when every element is hashable. -/
theorem pyFromkeys_eq_spec {xs : List Json} (h : xs.all Json.hashable = true) :
    pyFromkeys xs = .ok (specDedupFirstOccurrence xs) := by
  rw [pyFromkeys, if_pos h, foldl_setAdd_eq_specDedup]
  congr 1
  simp

end SetAddLemmas

section ShapeLemmas

theorem normPainPoint_ok {fs : List (String × Json)} {elems : List Json}
    (hiter : pyIter ((objFind fs "evidence_interviews").getD (.arr [])) = .ok elems)
    (hhash : elems.all Json.hashable = true) :
    normPainPoint (.obj fs) = .ok (ppResult fs elems) := by
  simp only [normPainPoint, hiter, pyFromkeys, hhash, if_pos, ppResult]

theorem normPainPoint_ok_elim {fs : List (String × Json)} {q : Json}
    (h : normPainPoint (.obj fs) = .ok q) :
    ∃ elems, pyIter ((objFind fs "evidence_interviews").getD (.arr [])) = .ok elems ∧
      elems.all Json.hashable = true ∧ q = ppResult fs elems := by
  cases hiter : pyIter ((objFind fs "evidence_interviews").getD (.arr [])) with
  | error e => simp [normPainPoint, hiter] at h
  | ok elems =>
    cases hhash : elems.all Json.hashable with
    | false => simp [normPainPoint, hiter, pyFromkeys, hhash] at h
    | true =>
      refine ⟨elems, rfl, hhash, ?_⟩
      rw [normPainPoint_ok hiter hhash] at h
      exact (Except.ok.inj h).symm

theorem normPainPoint_not_obj {j : Json} (h : j.isObj = false) :
    normPainPoint j = .error .attributeError := by
  cases j <;> simp_all [normPainPoint, Json.isObj]

theorem normTheme_ok {m : List (Json × Json)} {fs : List (String × Json)}
    {labels s : List Json}
    (hiter : pyIter ((objFind fs "pain_points").getD (.arr [])) = .ok labels)
    (hfold : foldExcept (themeLabelStep m) [] labels = .ok s) :
    normTheme m (.obj fs) = .ok (themeResult fs s) := by
  simp only [normTheme, hiter, hfold, themeResult]

theorem normTheme_ok_elim {m : List (Json × Json)} {fs : List (String × Json)} {q : Json}
    (h : normTheme m (.obj fs) = .ok q) :
    ∃ labels s, pyIter ((objFind fs "pain_points").getD (.arr [])) = .ok labels ∧
      foldExcept (themeLabelStep m) [] labels = .ok s ∧ q = themeResult fs s := by
  cases hiter : pyIter ((objFind fs "pain_points").getD (.arr [])) with
  | error e => simp [normTheme, hiter] at h
  | ok labels =>
    cases hfold : foldExcept (themeLabelStep m) [] labels with
    | error e => simp [normTheme, hiter, hfold] at h
    | ok s =>
      refine ⟨labels, s, rfl, hfold, ?_⟩
      rw [normTheme_ok hiter hfold] at h
      exact (Except.ok.inj h).symm

theorem normTheme_not_obj {m : List (Json × Json)} {j : Json} (h : j.isObj = false) :
    normTheme m j = .error .attributeError := by
  cases j <;> simp_all [normTheme, Json.isObj]

theorem themeLabelStep_ok_elim {m : List (Json × Json)} {s : List Json} {label : Json}
    {s' : List Json} (h : themeLabelStep m s label = .ok s') :
    s' = (contribOf m label).foldl setAdd s := by
  cases hhash : label.hashable with
  | false => simp [themeLabelStep, hhash] at h
  | true =>
    cases hfind : mapFind m label with
    | none =>
      simp only [themeLabelStep, hhash, if_pos, hfind] at h
      simp [contribOf, hhash, hfind, ← Except.ok.inj h]
    | some p =>
      cases htr : p.pyTruthy with
      | false =>
        simp only [themeLabelStep, hhash, if_pos, hfind, htr] at h
        cases p <;> simp_all [contribOf, hhash, hfind, Json.pyTruthy]
      | true =>
        cases p with
        | obj pfs =>
          cases hiter : pyIter ((objFind pfs "evidence_interviews").getD (.arr [])) with
          | error e => simp [themeLabelStep, hhash, hfind, htr, hiter] at h
          | ok elems =>
            cases hall : elems.all Json.hashable with
            | false => simp [themeLabelStep, hhash, hfind, htr, hiter, hall] at h
            | true =>
              simp only [themeLabelStep, hhash, if_pos, hfind, htr, hiter, hall] at h
              simp [contribOf, hhash, hfind, htr, hiter, ← Except.ok.inj h]
        | null => simp [themeLabelStep, hhash, hfind, htr] at h
        | bool b => simp [themeLabelStep, hhash, hfind, htr] at h
        | num n => simp [themeLabelStep, hhash, hfind, htr] at h
        | str t => simp [themeLabelStep, hhash, hfind, htr] at h
        | arr xs => simp [themeLabelStep, hhash, hfind, htr] at h

theorem foldExcept_themeStep_elim {m : List (Json × Json)} {labels s0 s : List Json}
    (h : foldExcept (themeLabelStep m) s0 labels = .ok s) :
    s = (labels.flatMap (contribOf m)).foldl setAdd s0 := by
  induction labels generalizing s0 with
  | nil => simpa [foldExcept] using (Except.ok.inj h).symm
  | cons l ls ih =>
    simp only [foldExcept] at h
    cases hstep : themeLabelStep m s0 l with
    | error e => rw [hstep] at h; exact absurd h (by simp)
    | ok a =>
      rw [hstep] at h
      rw [List.flatMap_cons, List.foldl_append, ← themeLabelStep_ok_elim hstep]
      exact ih h

theorem themeLabelStep_ok_of_good {m : List (Json × Json)} {s : List Json} {label : Json}
    (hl : label.hashable = true)
    (hres : ∀ p, mapFind m label = some p → goodPP p = true) :
    themeLabelStep m s label = .ok ((contribOf m label).foldl setAdd s) := by
  cases hfind : mapFind m label with
  | none => simp [themeLabelStep, hl, hfind, contribOf]
  | some p =>
    have hgood := hres p hfind
    cases p with
    | obj pfs =>
      cases hiv : (objFind pfs "evidence_interviews").getD (.arr []) with
      | arr xs =>
        have hall : xs.all Json.hashable = true := by simpa [goodPP, hiv] using hgood
        cases htr : (Json.obj pfs).pyTruthy with
        | false => simp [themeLabelStep, hl, hfind, htr, contribOf]
        | true =>
          simp [themeLabelStep, hl, hfind, htr, hiv, pyIter, hall, contribOf]
      | null => simp [goodPP, hiv] at hgood
      | bool b => simp [goodPP, hiv] at hgood
      | num n => simp [goodPP, hiv] at hgood
      | str t => simp [goodPP, hiv] at hgood
      | obj gs => simp [goodPP, hiv] at hgood
    | null => simp [goodPP] at hgood
    | bool b => simp [goodPP] at hgood
    | num n => simp [goodPP] at hgood
    | str t => simp [goodPP] at hgood
    | arr xs => simp [goodPP] at hgood

theorem foldExcept_themeStep_of_good {m : List (Json × Json)} {labels : List Json}
    (s0 : List Json)
    (hl : ∀ l ∈ labels, l.hashable = true)
    (hres : ∀ l ∈ labels, ∀ p, mapFind m l = some p → goodPP p = true) :
    foldExcept (themeLabelStep m) s0 labels =
      .ok ((labels.flatMap (contribOf m)).foldl setAdd s0) := by
  induction labels generalizing s0 with
  | nil => simp [foldExcept]
  | cons l ls ih =>
    have hstep := themeLabelStep_ok_of_good (s := s0)
      (hl l (by simp)) (hres l (by simp))
    simp only [foldExcept, hstep]
    rw [List.flatMap_cons, List.foldl_append]
    exact ih _ (fun x hx => hl x (by simp [hx])) (fun x hx => hres x (by simp [hx]))

theorem mapExcept_ok_elim {f : Json → Except PyErr Json} {l l' : List Json}
    (h : mapExcept f l = .ok l') :
    List.Forall₂ (fun x y => f x = .ok y) l l' := by
  induction l generalizing l' with
  | nil =>
    simp only [mapExcept] at h
    rw [← Except.ok.inj h]
    exact List.Forall₂.nil
  | cons x xs ih =>
    simp only [mapExcept] at h
    cases hx : f x with
    | error e => rw [hx] at h; exact absurd h (by simp)
    | ok y =>
      rw [hx] at h
      cases hxs : mapExcept f xs with
      | error e => rw [hxs] at h; exact absurd h (by simp)
      | ok ys =>
        rw [hxs] at h
        rw [← Except.ok.inj h]
        exact List.Forall₂.cons hx (ih hxs)

theorem mapExcept_ok_intro {f : Json → Except PyErr Json} {l l' : List Json}
    (h : List.Forall₂ (fun x y => f x = .ok y) l l') : mapExcept f l = .ok l' := by
  induction h with
  | nil => rfl
  | cons hx _ ih => simp only [mapExcept, hx, ih]

theorem lookupStep_ok_elim {m0 : List (Json × Json)} {p : Json} {m1 : List (Json × Json)}
    (h : lookupStep m0 p = .ok m1) :
    (ppLabel p).hashable = true ∧ p.isObj = true ∧ m1 = mapInsert m0 (ppLabel p) p := by
  cases p with
  | obj fs =>
    cases hh : ((objFind fs "label").getD Json.null).hashable with
    | false => simp [lookupStep, hh] at h
    | true =>
      refine ⟨by simpa [ppLabel] using hh, rfl, ?_⟩
      simp only [lookupStep, hh, if_pos] at h
      simp [← Except.ok.inj h, ppLabel]
  | null => simp [lookupStep] at h
  | bool b => simp [lookupStep] at h
  | num n => simp [lookupStep] at h
  | str t => simp [lookupStep] at h
  | arr xs => simp [lookupStep] at h

theorem lookupStep_ok {m0 : List (Json × Json)} {p : Json}
    (hobj : p.isObj = true) (hh : (ppLabel p).hashable = true) :
    lookupStep m0 p = .ok (mapInsert m0 (ppLabel p) p) := by
  cases p <;> simp_all [lookupStep, ppLabel, Json.isObj]

theorem foldExcept_lookupStep_elim {ps : List Json} {m0 m : List (Json × Json)}
    (h : foldExcept lookupStep m0 ps = .ok m) (k : Json) :
    mapFind m k = ps.foldl (fun acc p => if ppLabel p = k then some p else acc)
      (mapFind m0 k) := by
  induction ps generalizing m0 with
  | nil => simpa [foldExcept] using congrArg (fun mm => mapFind mm k) (Except.ok.inj h).symm
  | cons p rest ih =>
    simp only [foldExcept] at h
    cases hstep : lookupStep m0 p with
    | error e => rw [hstep] at h; exact absurd h (by simp)
    | ok m1 =>
      rw [hstep] at h
      obtain ⟨-, -, rfl⟩ := lookupStep_ok_elim hstep
      rw [List.foldl_cons, ih h]
      by_cases hk : ppLabel p = k
      · rw [if_pos hk, hk, mapFind_insert_self]
      · rw [if_neg hk, mapFind_insert_ne _ _ (fun hh => hk hh.symm)]

end ShapeLemmas

section MoreLemmas

theorem foldl_setAdd_nil_eq_specDedup (l : List Json) :
    l.foldl setAdd [] = specDedupFirstOccurrence l := by
  rw [foldl_setAdd_eq_specDedup]
  simp

theorem toFinset_flatMap (f : Json → List Json) (labels : List Json) :
    (labels.flatMap f).toFinset =
      labels.foldr (fun l acc => (f l).toFinset ∪ acc) ∅ := by
  induction labels with
  | nil => simp
  | cons l ls ih => simp [List.flatMap_cons, List.toFinset_append, ih]

theorem buildLookup_total (ps : List Json) (m0 : List (Json × Json))
    (hps : ∀ p ∈ ps, p.isObj = true ∧ (ppLabel p).hashable = true) :
    ∃ m, foldExcept lookupStep m0 ps = .ok m := by
  induction ps generalizing m0 with
  | nil => exact ⟨m0, rfl⟩
  | cons p rest ih =>
    have hp := hps p (by simp)
    obtain ⟨m, hm⟩ := ih (mapInsert m0 (ppLabel p) p) (fun x hx => hps x (by simp [hx]))
    exact ⟨m, by simp only [foldExcept, lookupStep_ok hp.1 hp.2, hm]⟩

end MoreLemmas

section NormalizeLemmas

theorem objFind_writeBack_ne (fs : List (String × Json)) {k k' : String}
    (l : List Json) (h : k' ≠ k) :
    objFind (writeBack fs k l) k' = objFind fs k' := by
  rw [writeBack]
  cases hv : objFind fs k with
  | none => rfl
  | some v => cases v <;> simp [objFind_setField_ne _ _ h]

theorem objFind_writeBack_arr {fs : List (String × Json)} {k : String}
    {xs : List Json} (l : List Json) (h : objFind fs k = some (.arr xs)) :
    objFind (writeBack fs k l) k = some (.arr l) := by
  rw [writeBack, h, objFind_setField_self]

theorem writeBack_of_not_arr {fs : List (String × Json)} {k : String}
    (l : List Json) (h : ∀ xs, objFind fs k ≠ some (.arr xs)) :
    writeBack fs k l = fs := by
  rw [writeBack]
  cases hv : objFind fs k with
  | none => rfl
  | some v => cases v <;> first | rfl | exact absurd hv (h _)

theorem normalize_ok_elim {fs : List (String × Json)} {y : Json}
    (h : normalize (.obj fs) = .ok y) :
    ∃ ppElems newPps ppElems1 m thElems newThs,
      pyIter ((objFind fs "pain_points").getD (.arr [])) = .ok ppElems ∧
      mapExcept normPainPoint ppElems = .ok newPps ∧
      pyIter ((objFind (writeBack fs "pain_points" newPps) "pain_points").getD
        (.arr [])) = .ok ppElems1 ∧
      buildLookup ppElems1 = .ok m ∧
      pyIter ((objFind (writeBack fs "pain_points" newPps) "themes").getD
        (.arr [])) = .ok thElems ∧
      mapExcept (normTheme m) thElems = .ok newThs ∧
      y = .obj (writeBack (writeBack fs "pain_points" newPps) "themes" newThs) := by
  cases h1 : pyIter ((objFind fs "pain_points").getD (.arr [])) with
  | error e => simp [normalize, h1] at h
  | ok ppElems =>
  cases h2 : mapExcept normPainPoint ppElems with
  | error e => simp [normalize, h1, h2] at h
  | ok newPps =>
  cases h3 : pyIter ((objFind (writeBack fs "pain_points" newPps) "pain_points").getD
      (.arr [])) with
  | error e => simp [normalize, h1, h2, h3] at h
  | ok ppElems1 =>
  cases h4 : buildLookup ppElems1 with
  | error e => simp [normalize, h1, h2, h3, h4] at h
  | ok m =>
  cases h5 : pyIter ((objFind (writeBack fs "pain_points" newPps) "themes").getD
      (.arr [])) with
  | error e => simp [normalize, h1, h2, h3, h4, h5] at h
  | ok thElems =>
  cases h6 : mapExcept (normTheme m) thElems with
  | error e => simp [normalize, h1, h2, h3, h4, h5, h6] at h
  | ok newThs =>
    refine ⟨ppElems, newPps, ppElems1, m, thElems, newThs, rfl, h2, h3, h4, h5, h6, ?_⟩
    have := h
    simp only [normalize, h1, h2, h3, h4, h5, h6] at this
    exact (Except.ok.inj this).symm

theorem normalize_ok_intro {fs : List (String × Json)}
    {ppElems newPps ppElems1 m thElems newThs : _}
    (h1 : pyIter ((objFind fs "pain_points").getD (.arr [])) = .ok ppElems)
    (h2 : mapExcept normPainPoint ppElems = .ok newPps)
    (h3 : pyIter ((objFind (writeBack fs "pain_points" newPps) "pain_points").getD
      (.arr [])) = .ok ppElems1)
    (h4 : buildLookup ppElems1 = .ok m)
    (h5 : pyIter ((objFind (writeBack fs "pain_points" newPps) "themes").getD
      (.arr [])) = .ok thElems)
    (h6 : mapExcept (normTheme m) thElems = .ok newThs) :
    normalize (.obj fs) =
      .ok (.obj (writeBack (writeBack fs "pain_points" newPps) "themes" newThs)) := by
  simp only [normalize, h1, h2, h3, h4, h5, h6]

theorem normalize_not_obj {j : Json} (h : j.isObj = false) :
    normalize j = .error .attributeError := by
  cases j <;> simp_all [normalize, Json.isObj]

theorem normPainPoint_ok_isObj {x y : Json} (h : normPainPoint x = .ok y) :
    ∃ fs, x = .obj fs := by
  cases x <;> simp_all [normPainPoint]

theorem normTheme_ok_isObj {m : List (Json × Json)} {x y : Json}
    (h : normTheme m x = .ok y) : ∃ fs, x = .obj fs := by
  cases x <;> simp_all [normTheme]

theorem normPainPoint_preserves {x y : Json} (hok : normPainPoint x = .ok y)
    (k : String) (h1 : k ≠ "evidence_interviews") (h2 : k ≠ "evidence_count")
    (h3 : k ≠ "evidence_strength") : jGet y k = jGet x k := by
  obtain ⟨fs, rfl⟩ := normPainPoint_ok_isObj hok
  obtain ⟨elems, -, -, rfl⟩ := normPainPoint_ok_elim hok
  simp only [jGet, ppResult]
  rw [objFind_setField_ne _ _ h3, objFind_setField_ne _ _ h2,
    objFind_setField_ne _ _ h1]

theorem normTheme_preserves {m : List (Json × Json)} {x y : Json}
    (hok : normTheme m x = .ok y) (k : String) (h1 : k ≠ "evidence_count") :
    jGet y k = jGet x k := by
  obtain ⟨fs, rfl⟩ := normTheme_ok_isObj hok
  obtain ⟨labels, s, -, -, rfl⟩ := normTheme_ok_elim hok
  simp only [jGet, themeResult]
  rw [objFind_setField_ne _ _ h1]

theorem pyIter_non_arr_str {v : Json} {l : List Json} (hv : ∀ xs, v ≠ .arr xs)
    (h : pyIter v = .ok l) : ∀ x ∈ l, ∃ t, x = .str t := by
  cases v with
  | arr xs => exact absurd rfl (hv xs)
  | str s =>
    intro x hx
    obtain rfl : (s.toList.map fun c => Json.str c.toString) = l := Except.ok.inj h
    obtain ⟨c, -, rfl⟩ := List.mem_map.mp hx
    exact ⟨c.toString, rfl⟩
  | obj gs =>
    intro x hx
    obtain rfl : (gs.map fun kv => Json.str kv.1) = l := Except.ok.inj h
    obtain ⟨kv, -, rfl⟩ := List.mem_map.mp hx
    exact ⟨kv.1, rfl⟩
  | null => simp [pyIter] at h
  | bool b => simp [pyIter] at h
  | num n => simp [pyIter] at h

theorem mapExcept_normPP_non_arr {v : Json} {l newl : List Json}
    (hv : ∀ xs, v ≠ .arr xs) (hiter : pyIter v = .ok l)
    (hmap : mapExcept normPainPoint l = .ok newl) : l = [] ∧ newl = [] := by
  cases l with
  | nil => exact ⟨rfl, (Except.ok.inj hmap).symm⟩
  | cons x xs =>
    obtain ⟨t, rfl⟩ := pyIter_non_arr_str hv hiter x (by simp)
    simp [mapExcept, normPainPoint] at hmap

theorem mapExcept_normTheme_non_arr {m : List (Json × Json)} {v : Json}
    {l newl : List Json}
    (hv : ∀ xs, v ≠ .arr xs) (hiter : pyIter v = .ok l)
    (hmap : mapExcept (normTheme m) l = .ok newl) : l = [] ∧ newl = [] := by
  cases l with
  | nil => exact ⟨rfl, (Except.ok.inj hmap).symm⟩
  | cons x xs =>
    obtain ⟨t, rfl⟩ := pyIter_non_arr_str hv hiter x (by simp)
    simp [mapExcept, normTheme] at hmap

theorem forall₂_mem_right {R : Json → Json → Prop} {l l' : List Json}
    (h : List.Forall₂ R l l') : ∀ y ∈ l', ∃ x ∈ l, R x y := by
  induction h with
  | nil => simp
  | cons hr _ ih =>
    intro y hy
    rcases List.mem_cons.mp hy with rfl | hy'
    · exact ⟨_, by simp, hr⟩
    · obtain ⟨x, hx, hxy⟩ := ih y hy'
      exact ⟨x, by simp [hx], hxy⟩

end NormalizeLemmas

section TotalityLemmas

theorem normPainPoint_total_of_good {p : Json} (hp : goodPPEntry p = true) :
    ∃ q, normPainPoint p = .ok q := by
  cases p with
  | obj pfs =>
    cases hiv : (objFind pfs "evidence_interviews").getD (.arr []) with
    | arr xs =>
      have hall : xs.all Json.hashable = true := by
        have h := (Bool.and_eq_true_iff.mp (by simpa [goodPPEntry] using hp)).1
        rw [hiv] at h
        exact h
      exact ⟨_, normPainPoint_ok (by rw [hiv]; rfl) hall⟩
    | null => simp [goodPPEntry, hiv] at hp
    | bool b => simp [goodPPEntry, hiv] at hp
    | num n => simp [goodPPEntry, hiv] at hp
    | str t => simp [goodPPEntry, hiv] at hp
    | obj gs => simp [goodPPEntry, hiv] at hp
  | null => simp [goodPPEntry] at hp
  | bool b => simp [goodPPEntry] at hp
  | num n => simp [goodPPEntry] at hp
  | str t => simp [goodPPEntry] at hp
  | arr xs => simp [goodPPEntry] at hp

theorem mapExcept_total {f : Json → Except PyErr Json} {l : List Json}
    (h : ∀ p ∈ l, ∃ q, f p = .ok q) : ∃ l', mapExcept f l = .ok l' := by
  induction l with
  | nil => exact ⟨[], rfl⟩
  | cons x xs ih =>
    obtain ⟨q, hq⟩ := h x (by simp)
    obtain ⟨l', hl'⟩ := ih (fun p hp => h p (by simp [hp]))
    exact ⟨q :: l', by simp only [mapExcept, hq, hl']⟩

theorem normPainPoint_output_good {p q : Json} (hp : goodPPEntry p = true)
    (hok : normPainPoint p = .ok q) :
    q.isObj = true ∧ (ppLabel q).hashable = true ∧ goodPP q = true := by
  obtain ⟨pfs, rfl⟩ := normPainPoint_ok_isObj hok
  obtain ⟨elems, hiter, hhash, rfl⟩ := normPainPoint_ok_elim hok
  have hp2 := (Bool.and_eq_true_iff.mp (by simpa [goodPPEntry] using hp)).2
  refine ⟨rfl, ?_, ?_⟩
  · simp only [ppResult, ppLabel]
    rw [objFind_setField_ne _ _ (by decide), objFind_setField_ne _ _ (by decide),
      objFind_setField_ne _ _ (by decide)]
    exact hp2
  · simp only [goodPP, ppResult]
    rw [objFind_setField_ne _ _ (by decide), objFind_setField_ne _ _ (by decide),
      objFind_setField_self]
    simp only [Option.getD]
    rw [List.all_eq_true]
    intro x hx
    rcases mem_foldl_setAdd.mp hx with h0 | h1
    · exact absurd h0 (by simp)
    · exact List.all_eq_true.mp hhash x h1

theorem foldl_lookup_mem {ps : List Json} {k : Json} {acc : Option Json} {p : Json}
    (h : ps.foldl (fun acc q => if ppLabel q = k then some q else acc) acc = some p) :
    p ∈ ps ∨ acc = some p := by
  induction ps generalizing acc with
  | nil => exact Or.inr h
  | cons q qs ih =>
    rw [List.foldl_cons] at h
    rcases ih h with hmem | hacc
    · exact Or.inl (by simp [hmem])
    · by_cases hq : ppLabel q = k
      · rw [if_pos hq] at hacc
        exact Or.inl (by simp [Option.some.inj hacc])
      · rw [if_neg hq] at hacc
        exact Or.inr hacc

theorem buildLookup_values_mem {ps : List Json} {m : List (Json × Json)}
    (hm : buildLookup ps = .ok m) {k p : Json} (h : mapFind m k = some p) : p ∈ ps := by
  rw [foldExcept_lookupStep_elim hm k] at h
  rcases foldl_lookup_mem (by simpa [mapFind] using h) with hmem | habs
  · exact hmem
  · simp at habs

theorem normTheme_total_of_good {m : List (Json × Json)} {t : Json}
    (ht : goodThemeEntry t = true)
    (hvals : ∀ k p, mapFind m k = some p → goodPP p = true) :
    ∃ t', normTheme m t = .ok t' := by
  cases t with
  | obj tfs =>
    cases hlv : (objFind tfs "pain_points").getD (.arr []) with
    | arr ls =>
      have hall : ls.all Json.hashable = true := by
        have h := (by simpa [goodThemeEntry] using ht :
          (match (objFind tfs "pain_points").getD (.arr []) with
           | .arr ls => ls.all Json.hashable
           | _ => false) = true)
        rw [hlv] at h
        exact h
      have hfold := foldExcept_themeStep_of_good (m := m) []
        (fun l hl => List.all_eq_true.mp hall l hl)
        (fun l _ p hp => hvals l p hp)
      exact ⟨_, normTheme_ok (by rw [hlv]; rfl) hfold⟩
    | null => simp [goodThemeEntry, hlv] at ht
    | bool b => simp [goodThemeEntry, hlv] at ht
    | num n => simp [goodThemeEntry, hlv] at ht
    | str s => simp [goodThemeEntry, hlv] at ht
    | obj gs => simp [goodThemeEntry, hlv] at ht
  | null => simp [goodThemeEntry] at ht
  | bool b => simp [goodThemeEntry] at ht
  | num n => simp [goodThemeEntry] at ht
  | str s => simp [goodThemeEntry] at ht
  | arr xs => simp [goodThemeEntry] at ht

theorem objFind_writeBack_getD {fs : List (String × Json)} {k : String}
    {ps newl : List Json}
    (hpv : (objFind fs k).getD (.arr []) = .arr ps) (hlen : newl.length = ps.length) :
    (objFind (writeBack fs k newl) k).getD (.arr []) = .arr newl := by
  cases hfind : objFind fs k with
  | none =>
    rw [hfind] at hpv
    obtain rfl : ps = [] := (Json.arr.inj (by simpa using hpv)).symm
    obtain rfl : newl = [] := List.length_eq_zero.mp (by simpa using hlen)
    simp [writeBack, hfind]
  | some v =>
    rw [hfind] at hpv
    simp only [Option.getD] at hpv
    subst hpv
    rw [objFind_writeBack_arr _ hfind]
    rfl

end TotalityLemmas

section IdemLemmas

theorem mapExcept_ok_of_forall {f : Json → Except PyErr Json} {l : List Json}
    (h : ∀ x ∈ l, f x = .ok x) : mapExcept f l = .ok l := by
  induction l with
  | nil => rfl
  | cons x xs ih =>
    simp only [mapExcept, h x (by simp), ih (fun y hy => h y (by simp [hy]))]

theorem normPainPoint_fixed {F : List (String × Json)} {d : List Json}
    (hiv : objFind F "evidence_interviews" = some (.arr d))
    (hcnt : objFind F "evidence_count" = some (.num d.length))
    (hstr : objFind F "evidence_strength" = some (.str
      (if d.length ≤ 1 then "low" else if d.length = 2 then "medium" else "high")))
    (hd : d.all Json.hashable = true) (hnd : d.Nodup) :
    normPainPoint (.obj F) = .ok (.obj F) := by
  have hiterF : pyIter ((objFind F "evidence_interviews").getD (.arr [])) = .ok d := by
    rw [hiv]
    rfl
  have hrun := normPainPoint_ok hiterF hd
  rw [hrun]
  have hdd : d.foldl setAdd [] = d := by
    simpa using foldl_setAdd_of_disjoint hnd (by simp)
  simp only [ppResult, hdd]
  rw [setField_eq_of_objFind hiv, setField_eq_of_objFind hcnt,
    setField_eq_of_objFind hstr]

theorem normPainPoint_idem {p q : Json} (h : normPainPoint p = .ok q) :
    normPainPoint q = .ok q := by
  obtain ⟨pfs, rfl⟩ := normPainPoint_ok_isObj h
  obtain ⟨elems, hiter, hhash, rfl⟩ := normPainPoint_ok_elim h
  have hd : (elems.foldl setAdd []).all Json.hashable = true := by
    rw [List.all_eq_true]
    intro x hx
    rcases mem_foldl_setAdd.mp hx with h0 | h1
    · exact absurd h0 (by simp)
    · exact List.all_eq_true.mp hhash x h1
  simp only [ppResult]
  refine normPainPoint_fixed ?_ ?_ ?_ hd (foldl_setAdd_nodup elems [] (by simp))
  · rw [objFind_setField_ne _ _ (by decide), objFind_setField_ne _ _ (by decide),
      objFind_setField_self]
  · rw [objFind_setField_ne _ _ (by decide), objFind_setField_self]
  · rw [objFind_setField_self]

theorem normTheme_idem {m : List (Json × Json)} {t q : Json}
    (h : normTheme m t = .ok q) : normTheme m q = .ok q := by
  obtain ⟨tfs, rfl⟩ := normTheme_ok_isObj h
  obtain ⟨labels, s, hiter, hfold, rfl⟩ := normTheme_ok_elim h
  have hlab : objFind (setField tfs "evidence_count" (.num s.length)) "pain_points" =
      objFind tfs "pain_points" := objFind_setField_ne _ _ (by decide)
  have hiter2 : pyIter ((objFind (setField tfs "evidence_count" (.num s.length))
      "pain_points").getD (.arr [])) = .ok labels := by
    rw [hlab]
    exact hiter
  have hrun := normTheme_ok hiter2 hfold
  simp only [themeResult] at hrun ⊢
  rw [hrun, setField_eq_of_objFind (objFind_setField_self _ _ _)]

theorem not_arr_of_find {fs : List (String × Json)} {k : String}
    (hnot : ¬ ∃ xs, objFind fs k = some (.arr xs)) {v : Json}
    (hfind : objFind fs k = some v) : ∀ xs, v ≠ .arr xs := by
  rintro xs rfl
  exact hnot ⟨xs, hfind⟩

theorem normalize_ok_idem {x y : Json} (h : normalize x = .ok y) :
    normalize y = .ok y := by
  have hobj : ∃ fs, x = .obj fs := by cases x <;> simp_all [normalize]
  obtain ⟨fs, rfl⟩ := hobj
  obtain ⟨ppElems, newPps, ppElems1, m, thElems, newThs, h1, h2, h3, h4, h5, h6, rfl⟩ :=
    normalize_ok_elim h
  -- the pain-point list: either stored as a list and rewritten, or nothing ran
  have hPP : (objFind fs "pain_points" = some (.arr ppElems) ∧ ppElems1 = newPps) ∨
      (ppElems1 = [] ∧ newPps = [] ∧ writeBack fs "pain_points" newPps = fs ∧
        ¬ ∃ xs, objFind fs "pain_points" = some (.arr xs)) := by
    by_cases harr : ∃ xs, objFind fs "pain_points" = some (.arr xs)
    · obtain ⟨xs, hfind⟩ := harr
      rw [hfind] at h1
      simp only [Option.getD_some, pyIter] at h1
      obtain rfl : xs = ppElems := Except.ok.inj h1
      rw [objFind_writeBack_arr _ hfind] at h3
      simp only [Option.getD_some, pyIter] at h3
      exact Or.inl ⟨hfind, (Except.ok.inj h3).symm⟩
    · have hwb : writeBack fs "pain_points" newPps = fs :=
        writeBack_of_not_arr _ (fun xs hh => harr ⟨xs, hh⟩)
      have hpe : ppElems = [] ∧ newPps = [] := by
        cases hfind : objFind fs "pain_points" with
        | none =>
          rw [hfind] at h1
          simp only [Option.getD_none, pyIter] at h1
          obtain rfl : ppElems = [] := (Except.ok.inj h1).symm
          exact ⟨rfl, by simpa [mapExcept] using h2.symm⟩
        | some v =>
          rw [hfind] at h1
          simp only [Option.getD_some] at h1
          exact mapExcept_normPP_non_arr (not_arr_of_find harr hfind) h1 h2
      obtain ⟨hpe1, hpe2⟩ := hpe
      have hppe1 : ppElems1 = [] := by
        rw [hwb] at h3
        rw [h1] at h3
        rw [hpe1] at h3
        exact (Except.ok.inj h3).symm
      exact Or.inr ⟨hppe1, hpe2, hwb, harr⟩
  -- per-entry idempotence of the rewritten pain points
  have hpp_fix : ∀ q ∈ ppElems1, normPainPoint q = .ok q := by
    rcases hPP with ⟨-, rfl⟩ | ⟨rfl, -, -, -⟩
    · intro q hq
      obtain ⟨x, -, hxy⟩ := forall₂_mem_right (mapExcept_ok_elim h2) q hq
      exact normPainPoint_idem hxy
    · intro q hq
      exact absurd hq (by simp)
  -- name the two rewritten field lists
  set fs1 := writeBack fs "pain_points" newPps with hfs1
  set fs2 := writeBack fs1 "themes" newThs with hfs2
  have hpp21 : objFind fs2 "pain_points" = objFind fs1 "pain_points" := by
    rw [hfs2]
    exact objFind_writeBack_ne _ _ (by decide)
  -- the theme list: same dichotomy on fs1
  have hTH : (objFind fs1 "themes" = some (.arr thElems) ∧
        objFind fs2 "themes" = some (.arr newThs)) ∨
      (thElems = [] ∧ newThs = [] ∧ writeBack fs1 "themes" newThs = fs1 ∧
        ¬ ∃ ys, objFind fs1 "themes" = some (.arr ys)) := by
    by_cases harr : ∃ ys, objFind fs1 "themes" = some (.arr ys)
    · obtain ⟨ys, hfind⟩ := harr
      rw [hfind] at h5
      simp only [Option.getD_some, pyIter] at h5
      obtain rfl : ys = thElems := Except.ok.inj h5
      exact Or.inl ⟨hfind, by rw [hfs2]; exact objFind_writeBack_arr _ hfind⟩
    · have hwb : writeBack fs1 "themes" newThs = fs1 :=
        writeBack_of_not_arr _ (fun ys hh => harr ⟨ys, hh⟩)
      have hpe : thElems = [] ∧ newThs = [] := by
        cases hfind : objFind fs1 "themes" with
        | none =>
          rw [hfind] at h5
          simp only [Option.getD_none, pyIter] at h5
          obtain rfl : thElems = [] := (Except.ok.inj h5).symm
          exact ⟨rfl, by simpa [mapExcept] using h6.symm⟩
        | some v =>
          rw [hfind] at h5
          simp only [Option.getD_some] at h5
          exact mapExcept_normTheme_non_arr (not_arr_of_find harr hfind) h5 h6
      exact Or.inr ⟨hpe.1, hpe.2, hwb, harr⟩
  have hth_fix : ∀ u ∈ newThs, normTheme m u = .ok u := by
    rcases hTH with ⟨-, -⟩ | ⟨-, rfl, -, -⟩
    · intro u hu
      obtain ⟨t, -, htu⟩ := forall₂_mem_right (mapExcept_ok_elim h6) u hu
      exact normTheme_idem htu
    · intro u hu
      exact absurd hu (by simp)
  -- facts about the second run
  have P1 : pyIter ((objFind fs2 "pain_points").getD (.arr [])) = .ok ppElems1 := by
    rw [hpp21]
    exact h3
  have P3 : mapExcept normPainPoint ppElems1 = .ok ppElems1 :=
    mapExcept_ok_of_forall hpp_fix
  have P4 : writeBack fs2 "pain_points" ppElems1 = fs2 := by
    rcases hPP with ⟨hfind, rfl⟩ | ⟨rfl, -, hwb, hnot⟩
    · have hfind2 : objFind fs2 "pain_points" = some (.arr ppElems1) := by
        rw [hpp21, hfs1]
        exact objFind_writeBack_arr _ hfind
      simp only [writeBack, hfind2]
      exact setField_eq_of_objFind hfind2
    · apply writeBack_of_not_arr
      intro xs hh
      rw [hpp21, hwb] at hh
      exact hnot ⟨xs, hh⟩
  have T1 : pyIter ((objFind fs2 "themes").getD (.arr [])) = .ok newThs := by
    rcases hTH with ⟨-, hfind2⟩ | ⟨rfl, rfl, hwb, -⟩
    · rw [hfind2]
      rfl
    · rw [hfs2, hwb]
      exact h5
  have T3 : mapExcept (normTheme m) newThs = .ok newThs :=
    mapExcept_ok_of_forall hth_fix
  have T4 : writeBack fs2 "themes" newThs = fs2 := by
    rcases hTH with ⟨-, hfind2⟩ | ⟨-, rfl, hwb, hnot⟩
    · simp only [writeBack, hfind2]
      exact setField_eq_of_objFind hfind2
    · rw [hfs2, hwb]
      exact hwb
  have hfinal := normalize_ok_intro P1 P3 (by rw [P4]; exact P1) h4
    (by rw [P4]; exact T1) T3
  rw [P4, T4] at hfinal
  exact hfinal

end IdemLemmas

section Claims

/-- C2: for every pain-point entry, normalization rewrites
`evidence_interviews` to the raw list deduplicated with the first occurrence
of each value kept in order (the raw list reading as `[]` when the field is
absent, via the `getD` hypothesis), and sets `evidence_count` to the number
of distinct raw entries, regardless of duplicates or ordering in the raw
input. -/
theorem painPoint_dedup_and_count
    (fs : List (String × Json)) (raw : List Json) (q : Json)
    (hraw : (objFind fs "evidence_interviews").getD (.arr []) = .arr raw)
    (hok : normPainPoint (.obj fs) = .ok q) :
    jGet q "evidence_interviews" = some (.arr (specDedupFirstOccurrence raw)) ∧
    (specDedupFirstOccurrence raw).Nodup ∧
    jGet q "evidence_count" = some (.num raw.toFinset.card) := by
  obtain ⟨elems, hiter, hhash, rfl⟩ := normPainPoint_ok_elim hok
  rw [hraw] at hiter
  simp only [pyIter] at hiter
  obtain rfl : raw = elems := Except.ok.inj hiter
  refine ⟨?_, ?_, ?_⟩
  · simp only [jGet, ppResult]
    rw [objFind_setField_ne _ _ (by decide), objFind_setField_ne _ _ (by decide),
      objFind_setField_self, foldl_setAdd_nil_eq_specDedup]
  · rw [← foldl_setAdd_nil_eq_specDedup]
    exact foldl_setAdd_nodup raw [] (by simp)
  · simp only [jGet, ppResult]
    rw [objFind_setField_ne _ _ (by decide), objFind_setField_self,
      length_foldl_setAdd]

/-- Witness for C2: raw evidence `["Interview 1", "Interview 1",
"Interview 2"]` normalizes to the deduplicated list with count 2. -/
theorem painPoint_dedup_and_count_witness :
    jGet (.obj [("label", .str "Inventory accuracy"),
        ("evidence_interviews", .arr [.str "Interview 1", .str "Interview 2"]),
        ("evidence_count", .num 2), ("evidence_strength", .str "medium")])
      "evidence_interviews" = some (.arr [.str "Interview 1", .str "Interview 2"]) ∧
    jGet (.obj [("label", .str "Inventory accuracy"),
        ("evidence_interviews", .arr [.str "Interview 1", .str "Interview 2"]),
        ("evidence_count", .num 2), ("evidence_strength", .str "medium")])
      "evidence_count" = some (.num 2) := by
  have h := painPoint_dedup_and_count
    [("label", .str "Inventory accuracy"),
     ("evidence_interviews", .arr [.str "Interview 1", .str "Interview 1", .str "Interview 2"])]
    [.str "Interview 1", .str "Interview 1", .str "Interview 2"]
    (.obj [("label", .str "Inventory accuracy"),
        ("evidence_interviews", .arr [.str "Interview 1", .str "Interview 2"]),
        ("evidence_count", .num 2), ("evidence_strength", .str "medium")])
    (by decide) (by decide)
  refine ⟨?_, ?_⟩
  · rw [h.1]; decide
  · rw [h.2.2]; decide

/-- C3: normalization derives `evidence_strength` from the final
`evidence_count`: "low" for counts 0 or 1, "medium" for exactly 2, "high"
for 3 or more. -/
theorem painPoint_strength_thresholds
    (fs : List (String × Json)) (q : Json) (n : Nat)
    (hok : normPainPoint (.obj fs) = .ok q)
    (hn : jGet q "evidence_count" = some (.num n)) :
    jGet q "evidence_strength" =
      some (.str (if n ≤ 1 then "low" else if n = 2 then "medium" else "high")) := by
  obtain ⟨elems, hiter, hhash, rfl⟩ := normPainPoint_ok_elim hok
  simp only [jGet, ppResult] at hn ⊢
  rw [objFind_setField_ne _ _ (by decide), objFind_setField_self] at hn
  have hlen : (elems.foldl setAdd []).length = n := by
    have h1 := Json.num.inj (Option.some.inj hn)
    exact_mod_cast h1
  rw [objFind_setField_self, hlen]

/-- Witness for C3: exactly 2 distinct interviews yields "medium" and
exactly 3 yields "high". -/
theorem painPoint_strength_thresholds_witness :
    jGet (.obj [("evidence_interviews", .arr [.str "I1", .str "I2"]),
        ("evidence_count", .num 2), ("evidence_strength", .str "medium")])
      "evidence_strength" = some (.str "medium") ∧
    jGet (.obj [("evidence_interviews", .arr [.str "I1", .str "I2", .str "I3"]),
        ("evidence_count", .num 3), ("evidence_strength", .str "high")])
      "evidence_strength" = some (.str "high") := by
  constructor
  · have h := painPoint_strength_thresholds
      [("evidence_interviews", .arr [.str "I1", .str "I2"])]
      (.obj [("evidence_interviews", .arr [.str "I1", .str "I2"]),
          ("evidence_count", .num 2), ("evidence_strength", .str "medium")])
      2 (by decide) (by decide)
    rw [h]; decide
  · have h := painPoint_strength_thresholds
      [("evidence_interviews", .arr [.str "I1", .str "I2", .str "I3"])]
      (.obj [("evidence_interviews", .arr [.str "I1", .str "I2", .str "I3"]),
          ("evidence_count", .num 3), ("evidence_strength", .str "high")])
      3 (by decide) (by decide)
    rw [h]; decide

/-- C1: each theme's recomputed `evidence_count` is the cardinality of the
set union of the evidence interviews contributed by the pain points its
labels resolve to — never their sum.  `(labels.flatMap (contribOf m)).toFinset`
is that union, as the second conjunct makes explicit. -/
theorem theme_count_is_union_card
    (m : List (Json × Json)) (fs : List (String × Json)) (labels : List Json) (t' : Json)
    (hlabels : (objFind fs "pain_points").getD (.arr []) = .arr labels)
    (hok : normTheme m (.obj fs) = .ok t') :
    jGet t' "evidence_count" =
      some (.num ((labels.flatMap (contribOf m)).toFinset.card)) ∧
    (labels.flatMap (contribOf m)).toFinset =
      labels.foldr (fun l acc => (contribOf m l).toFinset ∪ acc) ∅ := by
  refine ⟨?_, toFinset_flatMap _ _⟩
  obtain ⟨labels', s, hiter, hfold, rfl⟩ := normTheme_ok_elim hok
  rw [hlabels] at hiter
  simp only [pyIter] at hiter
  obtain rfl : labels = labels' := Except.ok.inj hiter
  have hs := foldExcept_themeStep_elim hfold
  simp only [jGet, themeResult, objFind_setField_self]
  rw [hs, length_foldl_setAdd]

/-- Witness for C1: two pain points both citing only "Interview 1", a theme
referencing both reports `evidence_count` 1, not 2. -/
theorem theme_count_is_union_card_witness :
    jGet (.obj [("theme", .str "T"),
        ("pain_points", .arr [.str "A", .str "B"]), ("evidence_count", .num 1)])
      "evidence_count" = some (.num 1) := by
  have h := theme_count_is_union_card
    [(.str "A", .obj [("label", .str "A"),
        ("evidence_interviews", .arr [.str "Interview 1"])]),
     (.str "B", .obj [("label", .str "B"),
        ("evidence_interviews", .arr [.str "Interview 1"])])]
    [("theme", .str "T"), ("pain_points", .arr [.str "A", .str "B"])]
    [.str "A", .str "B"]
    (.obj [("theme", .str "T"),
        ("pain_points", .arr [.str "A", .str "B"]), ("evidence_count", .num 1)])
    (by decide) (by decide)
  rw [h.1]; decide

/-- C6: theme labels with no match in `pp_by_label` are skipped without
raising (each contributes nothing, second conjunct), and the theme's
`evidence_count` is still the union cardinality over the labels that do
resolve: the recomputation succeeds whenever every listed label is hashable
and every label that resolves does so to a well-shaped entry. -/
theorem theme_unresolved_labels_skipped
    (m : List (Json × Json)) (fs : List (String × Json)) (labels : List Json)
    (hlabels : objFind fs "pain_points" = some (.arr labels))
    (hhash : ∀ l ∈ labels, l.hashable = true)
    (hgood : ∀ l ∈ labels, (mapFind m l).all goodPP = true) :
    normTheme m (.obj fs) =
      .ok (.obj (setField fs "evidence_count"
        (.num ((labels.flatMap (contribOf m)).toFinset.card)))) ∧
    ∀ l ∈ labels, mapFind m l = none → contribOf m l = [] := by
  constructor
  · have hgood' : ∀ l ∈ labels, ∀ p, mapFind m l = some p → goodPP p = true := by
      intro l hl p hp
      have := hgood l hl
      rw [hp] at this
      simpa [Option.all] using this
    have hfold := foldExcept_themeStep_of_good [] hhash hgood'
    have hiter : pyIter ((objFind fs "pain_points").getD (.arr [])) = .ok labels := by
      simp [hlabels, pyIter]
    have hok := normTheme_ok hiter hfold
    rw [hok, themeResult, length_foldl_setAdd]
  · intro l _ hnone
    simp [contribOf, hnone]

/-- Witness for C6: a theme listing a resolving label and a nonexistent one
still succeeds, counting only the resolving label's two interviews. -/
theorem theme_unresolved_labels_skipped_witness :
    normTheme
      [(.str "A", .obj [("label", .str "A"),
          ("evidence_interviews", .arr [.str "I1", .str "I2"])])]
      (.obj [("theme", .str "T"),
        ("pain_points", .arr [.str "A", .str "missing"])]) =
      .ok (.obj [("theme", .str "T"),
        ("pain_points", .arr [.str "A", .str "missing"]),
        ("evidence_count", .num 2)]) := by
  have h := theme_unresolved_labels_skipped
    [(.str "A", .obj [("label", .str "A"),
        ("evidence_interviews", .arr [.str "I1", .str "I2"])])]
    [("theme", .str "T"), ("pain_points", .arr [.str "A", .str "missing"])]
    [.str "A", .str "missing"]
    (by decide) (by decide) (by decide)
  rw [h.1]; decide

/-- C7: building `pp_by_label` raises no error for entries of any labels,
duplicates included, and the resulting dict maps every key to the entry
occurring last in iteration order among those carrying that label
(last-write-wins); `lastLabelMatch` is exactly that last entry. -/
theorem lookup_last_write_wins
    (ps : List Json)
    (hps : ∀ p ∈ ps, p.isObj = true ∧ (ppLabel p).hashable = true) :
    ∃ m, buildLookup ps = .ok m ∧ ∀ k : Json, mapFind m k = lastLabelMatch ps k := by
  obtain ⟨m, hm⟩ := buildLookup_total ps [] hps
  refine ⟨m, hm, fun k => ?_⟩
  rw [foldExcept_lookupStep_elim hm k]
  simp [lastLabelMatch, mapFind]

/-- Witness for C7: two pain points sharing the label "X"; lookup returns
the second one and no error occurs. -/
theorem lookup_last_write_wins_witness :
    ∃ m, buildLookup
        [.obj [("label", .str "X"), ("description", .str "first")],
         .obj [("label", .str "X"), ("description", .str "second")]] = .ok m ∧
      mapFind m (.str "X") =
        some (.obj [("label", .str "X"), ("description", .str "second")]) := by
  obtain ⟨m, hm, hk⟩ := lookup_last_write_wins
    [.obj [("label", .str "X"), ("description", .str "first")],
     .obj [("label", .str "X"), ("description", .str "second")]]
    (by decide)
  refine ⟨m, hm, ?_⟩
  rw [hk]
  decide

/-- C10: normalization preserves the number and relative order of the
`pain_points` and `themes` list entries: the output lists pair entrywise
with the input lists, entry i of the output being the rewrite of entry i of
the input with every field other than the evidence fields unchanged. -/
theorem normalize_preserves_structure
    (fs fs' : List (String × Json))
    (hok : normalize (.obj fs) = .ok (.obj fs')) :
    (∀ xs, objFind fs "pain_points" = some (.arr xs) →
      ∃ ys, objFind fs' "pain_points" = some (.arr ys) ∧ ys.length = xs.length ∧
        List.Forall₂ (fun x y => normPainPoint x = .ok y ∧
          ∀ k : String, k ≠ "evidence_interviews" → k ≠ "evidence_count" →
            k ≠ "evidence_strength" → jGet y k = jGet x k) xs ys) ∧
    (∀ ts, objFind fs "themes" = some (.arr ts) →
      ∃ ts', objFind fs' "themes" = some (.arr ts') ∧ ts'.length = ts.length ∧
        List.Forall₂ (fun t t' => ∀ k : String, k ≠ "evidence_count" →
          jGet t' k = jGet t k) ts ts') := by
  obtain ⟨ppElems, newPps, ppElems1, m, thElems, newThs, h1, h2, h3, h4, h5, h6, hy⟩ :=
    normalize_ok_elim hok
  obtain rfl := Json.obj.inj hy
  constructor
  · intro xs hxs
    rw [hxs] at h1
    simp only [Option.getD, pyIter] at h1
    obtain rfl : xs = ppElems := Except.ok.inj h1
    refine ⟨newPps, ?_, ?_, ?_⟩
    · rw [objFind_writeBack_ne _ _ (by decide), objFind_writeBack_arr _ hxs]
    · exact ((mapExcept_ok_elim h2).length_eq).symm
    · exact (mapExcept_ok_elim h2).imp
        (fun a b hab => ⟨hab, fun k k1 k2 k3 => normPainPoint_preserves hab k k1 k2 k3⟩)
  · intro ts hts
    have hts1 : objFind (writeBack fs "pain_points" newPps) "themes" = some (.arr ts) := by
      rw [objFind_writeBack_ne _ _ (by decide), hts]
    rw [hts1] at h5
    simp only [Option.getD, pyIter] at h5
    obtain rfl : ts = thElems := Except.ok.inj h5
    refine ⟨newThs, ?_, ?_, ?_⟩
    · exact objFind_writeBack_arr _ hts1
    · exact ((mapExcept_ok_elim h6).length_eq).symm
    · exact (mapExcept_ok_elim h6).imp
        (fun a b hab k k1 => normTheme_preserves hab k k1)

/-- Witness for C10: a two-pain-point, one-theme input keeps both lists at
their lengths with non-evidence fields intact. -/
theorem normalize_preserves_structure_witness :
    ∃ ys, objFind [("pain_points", Json.arr [
        .obj [("label", .str "A"), ("evidence_interviews", .arr []),
          ("evidence_count", .num 0), ("evidence_strength", .str "low")],
        .obj [("label", .str "B"), ("evidence_interviews", .arr []),
          ("evidence_count", .num 0), ("evidence_strength", .str "low")]]),
      ("themes", Json.arr [
        .obj [("theme", .str "T"), ("pain_points", .arr [.str "A"]),
          ("evidence_count", .num 0)]])] "pain_points" = some (.arr ys) ∧
      ys.length = 2 := by
  have h := normalize_preserves_structure
    [("pain_points", Json.arr [.obj [("label", .str "A")], .obj [("label", .str "B")]]),
     ("themes", Json.arr [.obj [("theme", .str "T"), ("pain_points", .arr [.str "A"])]])]
    [("pain_points", Json.arr [
        .obj [("label", .str "A"), ("evidence_interviews", .arr []),
          ("evidence_count", .num 0), ("evidence_strength", .str "low")],
        .obj [("label", .str "B"), ("evidence_interviews", .arr []),
          ("evidence_count", .num 0), ("evidence_strength", .str "low")]]),
     ("themes", Json.arr [
        .obj [("theme", .str "T"), ("pain_points", .arr [.str "A"]),
          ("evidence_count", .num 0)]])]
    (by decide)
  obtain ⟨ys, hy1, hy2, -⟩ := h.1
    [.obj [("label", .str "A")], .obj [("label", .str "B")]] (by decide)
  exact ⟨ys, hy1, by rw [hy2]; rfl⟩

/-- Counterexample to C8 as stated: the claim says missing optional fields
(e.g. a pain point's missing `label`) are defaulted to empty string/list in
the output; in fact normalizing `{"pain_points": [{}]}` leaves the output
entry without any `label`, `description`, or `segments` key — only the
three evidence fields are added. -/
theorem passthrough_counterexample :
    normalize (.obj [("pain_points", .arr [.obj []])]) =
      .ok (.obj [("pain_points", .arr [.obj
        [("evidence_interviews", .arr []), ("evidence_count", .num 0),
         ("evidence_strength", .str "low")]])]) ∧
    jGet (.obj [("evidence_interviews", .arr []), ("evidence_count", .num 0),
        ("evidence_strength", .str "low")]) "label" = none := by
  exact ⟨by decide, by decide⟩

/-- C8 amended: normalize passes every top-level field other than
`pain_points` and `themes` — in particular the quotes, hypotheses,
contradictions, and open-question lists — through completely unchanged and
performs no validation of their content; within each pain point every field
other than the three evidence fields is likewise passed through unchanged,
so missing optional fields stay missing in the output rather than being
defaulted (empty-string/empty-list defaulting happens only at render
time). -/
theorem normalize_passthrough
    (fs fs' : List (String × Json))
    (hok : normalize (.obj fs) = .ok (.obj fs')) :
    (∀ k : String, k ≠ "pain_points" → k ≠ "themes" →
      objFind fs' k = objFind fs k) ∧
    (∀ x y, normPainPoint x = .ok y →
      ∀ k : String, k ≠ "evidence_interviews" → k ≠ "evidence_count" →
        k ≠ "evidence_strength" → jGet y k = jGet x k) := by
  obtain ⟨ppElems, newPps, ppElems1, m, thElems, newThs, -, -, -, -, -, -, hy⟩ :=
    normalize_ok_elim hok
  obtain rfl := Json.obj.inj hy
  refine ⟨fun k hk1 hk2 => ?_, fun x y hxy k k1 k2 k3 => normPainPoint_preserves hxy k k1 k2 k3⟩
  rw [objFind_writeBack_ne _ _ hk2, objFind_writeBack_ne _ _ hk1]

/-- Witness for C8 amended: a quotes list passes through untouched, and a
pain point's `label` field is carried over unchanged. -/
theorem normalize_passthrough_witness :
    objFind [("quotes", Json.arr [.str "a quote"]),
        ("pain_points", Json.arr [.obj [("label", .str "A"),
          ("evidence_interviews", .arr []), ("evidence_count", .num 0),
          ("evidence_strength", .str "low")]])] "quotes" =
      some (.arr [.str "a quote"]) ∧
    jGet (.obj [("label", .str "A"), ("evidence_interviews", .arr []),
        ("evidence_count", .num 0), ("evidence_strength", .str "low")]) "label" =
      some (.str "A") := by
  have h := normalize_passthrough
    [("quotes", Json.arr [.str "a quote"]),
     ("pain_points", Json.arr [.obj [("label", .str "A")]])]
    [("quotes", Json.arr [.str "a quote"]),
     ("pain_points", Json.arr [.obj [("label", .str "A"),
        ("evidence_interviews", .arr []), ("evidence_count", .num 0),
        ("evidence_strength", .str "low")]])]
    (by decide)
  constructor
  · rw [h.1 "quotes" (by decide) (by decide)]
    decide
  · rw [h.2 (.obj [("label", .str "A")])
      (.obj [("label", .str "A"), ("evidence_interviews", .arr []),
        ("evidence_count", .num 0), ("evidence_strength", .str "low")])
      (by decide) "label" (by decide) (by decide) (by decide)]
    decide

/-- Counterexample to C5 as stated: `{"pain_points": [1]}` IS a keyed
structure (a mapping), yet normalize fails on it — the integer entry has no
`.get`, raising AttributeError — so "it fails only when the raw input is not
a mapping" is false. -/
theorem normalize_failure_counterexample :
    Json.isObj (.obj [("pain_points", .arr [.num 1])]) = true ∧
    normalize (.obj [("pain_points", .arr [.num 1])]) = .error .attributeError := by
  exact ⟨by decide, by decide⟩

/-- C5 amended: normalize never raises for any individually missing optional
field — every mapping whose `pain_points` and `themes` fields, when present,
are well-shaped lists normalizes successfully, fields being free to be
absent — and a non-mapping input always fails with the AttributeError that
signals a malformed response to the caller, with no partial output (the
result is an error, never a partially rewritten object); however normalize
can also fail on a mapping whose present fields are ill-shaped (for
instance a pain-point entry that is not itself a mapping). -/
theorem normalize_failure_conditions :
    (∀ j : Json, j.isObj = false → normalize j = .error .attributeError) ∧
    (∀ j : Json, wellShaped j = true → ∃ y, normalize j = .ok y) := by
  refine ⟨fun j hj => normalize_not_obj hj, fun j hws => ?_⟩
  cases j with
  | obj fs =>
    obtain ⟨hpm, htm⟩ := Bool.and_eq_true_iff.mp (by simpa [wellShaped] using hws)
    cases hpv : (objFind fs "pain_points").getD (.arr []) with
    | arr ps =>
      simp only [hpv] at hpm
      cases htv : (objFind fs "themes").getD (.arr []) with
      | arr ts =>
        simp only [htv] at htm
        obtain ⟨newPps, hmap⟩ := mapExcept_total
          (fun p hp => normPainPoint_total_of_good (List.all_eq_true.mp hpm p hp))
        have hfa := mapExcept_ok_elim hmap
        have hlen : newPps.length = ps.length := hfa.length_eq.symm
        have hgoodout : ∀ q ∈ newPps,
            q.isObj = true ∧ (ppLabel q).hashable = true ∧ goodPP q = true := by
          intro q hq
          obtain ⟨x, hx, hxy⟩ := forall₂_mem_right hfa q hq
          exact normPainPoint_output_good (List.all_eq_true.mp hpm x hx) hxy
        have hpv1 : (objFind (writeBack fs "pain_points" newPps) "pain_points").getD
            (.arr []) = .arr newPps := objFind_writeBack_getD hpv hlen
        obtain ⟨m, hm⟩ := buildLookup_total newPps []
          (fun q hq => ⟨(hgoodout q hq).1, (hgoodout q hq).2.1⟩)
        have hmvals : ∀ k p, mapFind m k = some p → goodPP p = true := by
          intro k p hk
          exact (hgoodout p (buildLookup_values_mem hm hk)).2.2
        have htv1 : (objFind (writeBack fs "pain_points" newPps) "themes").getD
            (.arr []) = .arr ts := by
          rw [objFind_writeBack_ne _ _ (by decide)]
          exact htv
        obtain ⟨newThs, hmapt⟩ := mapExcept_total
          (fun t ht => normTheme_total_of_good (List.all_eq_true.mp htm t ht) hmvals)
        exact ⟨_, normalize_ok_intro (by rw [hpv]; rfl) hmap (by rw [hpv1]; rfl) hm
          (by rw [htv1]; rfl) hmapt⟩
      | null => simp [htv] at htm
      | bool b => simp [htv] at htm
      | num n => simp [htv] at htm
      | str t => simp [htv] at htm
      | obj gs => simp [htv] at htm
    | null => simp [hpv] at hpm
    | bool b => simp [hpv] at hpm
    | num n => simp [hpv] at hpm
    | str t => simp [hpv] at hpm
    | obj gs => simp [hpv] at hpm
  | null => simp [wellShaped] at hws
  | bool b => simp [wellShaped] at hws
  | num n => simp [wellShaped] at hws
  | str t => simp [wellShaped] at hws
  | arr xs => simp [wellShaped] at hws

/-- Witness for C5 amended: a plain string fails with AttributeError; a
mapping with a label-less, evidence-less pain point and no themes key
normalizes successfully. -/
theorem normalize_failure_conditions_witness :
    normalize (.str "not a mapping") = .error .attributeError ∧
    ∃ y, normalize (.obj [("pain_points", .arr [.obj []])]) = .ok y := by
  exact ⟨normalize_failure_conditions.1 _ (by decide),
    normalize_failure_conditions.2 _ (by decide)⟩

/-- C4: normalization is idempotent — composing normalize with itself (via
`Except.bind`, which propagates the inner failure exactly as Python
propagates the inner exception) gives normalize back, for every input,
mapping-shaped ones in particular; so re-running the evidence recomputation
on an already-normalized result leaves every field unchanged. -/
theorem normalize_idempotent (x : Json) :
    (normalize x).bind normalize = normalize x := by
  cases hx : normalize x with
  | error e => rfl
  | ok y => exact normalize_ok_idem hx

/-- C9: the synthesis request carries the fixed 60-unit timeout; exactly one
HTTP call happens per analysis with no retry or backoff (the call count is
always 1 and the outcome depends only on the first transport result); a
non-success status aborts with a RuntimeError carrying the underlying
status and body text, a transport exception propagates as its message, and
every such failure stops the analysis with an error — no result object is
produced. -/
theorem single_call_fixed_timeout_no_retry :
    synthRequest.timeout = 60 ∧
    (∀ t : Nat → TransportResult, (callOpenaiSynthesis t).2 = 1) ∧
    (∀ t t' : Nat → TransportResult, t 0 = t' 0 →
      callOpenaiSynthesis t = callOpenaiSynthesis t') ∧
    (∀ (t : Nat → TransportResult) (status : Nat) (text : String)
        (payload : Option Json), t 0 = .response status text payload →
      status ≠ 200 → (callOpenaiSynthesis t).1 =
        .error ("OpenAI API error " ++ toString status ++ ": " ++ text)) ∧
    (∀ (t : Nat → TransportResult) (msg : String), t 0 = .failure msg →
      (callOpenaiSynthesis t).1 = .error msg) ∧
    (∀ (t : Nat → TransportResult) (e : String),
      (callOpenaiSynthesis t).1 = .error e →
      analyze t = .error ("Analysis failed: " ++ e)) := by
  refine ⟨rfl, ?_, ?_, ?_, ?_, ?_⟩
  · intro t
    simp only [callOpenaiSynthesis]
    cases t 0 with
    | failure msg => rfl
    | response status text payload =>
      cases payload <;> by_cases hs : status = 200 <;> simp [hs]
  · intro t t' h
    simp only [callOpenaiSynthesis, h]
  · intro t status text payload ht hs
    simp only [callOpenaiSynthesis, ht, if_pos hs]
  · intro t msg ht
    simp only [callOpenaiSynthesis, ht]
  · intro t e he
    simp only [analyze, he]

/-- Witness for C9 at a concrete transport returning HTTP 500 with body
"boom": one call, the RuntimeError message with the status and body, and an
aborted analysis with no result. -/
theorem single_call_fixed_timeout_no_retry_witness :
    (callOpenaiSynthesis (fun _ => .response 500 "boom" none)).2 = 1 ∧
    (callOpenaiSynthesis (fun _ => .response 500 "boom" none)).1 =
      .error "OpenAI API error 500: boom" ∧
    analyze (fun _ => .response 500 "boom" none) =
      .error "Analysis failed: OpenAI API error 500: boom" := by
  obtain ⟨-, hcount, -, hstatus, -, habort⟩ := single_call_fixed_timeout_no_retry
  have h := hstatus (fun _ => .response 500 "boom" none) 500 "boom" none rfl
    (by decide)
  refine ⟨hcount _, ?_, ?_⟩
  · rw [h]
    rfl
  · rw [habort _ _ h]
    rfl

end Claims

end App
